import Mathlib

/-!
Verification of the historify OHLCV resampling engine
(`app/utils/data_resampler.py`, class `DataResampler`).

Shallow embedding conventions:
* A candle timestamp is the number of whole minutes since the venue-local
  epoch midnight (`ts : ℕ`); `_prepare_dataframe`'s timezone localization
  (`tz_localize`) attaches an offset without changing the wall-clock value,
  so it is the identity on these wall-clock minute stamps.
* Prices are exact rationals (`ℚ`) standing for the finite decimal floats
  of the source; volumes are the source's non-negative integers (`ℕ`).
* `pandas.resample(freq, label='left', closed='left')` on a sorted
  minute-stamped frame groups rows by the bucket `ts / d` (d = bucket
  width in minutes, buckets anchored at midnight) and labels the bucket
  with its start `(ts / d) * d`.  On a sorted frame the rows of one bucket
  are consecutive, so the aggregation is embedded as a run-splitting pass.
  Empty buckets produce all-NaN rows which `aggregate_ohlcv_advanced`
  drops again (`dropna(how='all')` on the OHLC columns) and whose volume
  `fillna(0)` would zero; the run model never materialises them, which is
  the same output.
* Error strings are abbreviated versions of the source's messages.
-/

namespace Historify

/-- One source candle: `StockData` row restricted to the fields the
resampler reads (`_prepare_dataframe`).  `ts` = minutes since venue-local
epoch midnight (`datetime.combine(record.date, record.time)`). -/
structure Candle where
  ts : ℕ
  op : ℚ
  high : ℚ
  low : ℚ
  close : ℚ
  volume : ℕ
  deriving DecidableEq

/-- One aggregated output row: a bucket of the resampled frame, indexed by
its left (start) label in minutes. -/
structure Bucket where
  label : ℕ
  op : ℚ
  high : ℚ
  low : ℚ
  close : ℚ
  volume : ℕ
  deriving DecidableEq

/-- `DataResampler.SUPPORTED_TIMEFRAMES`: mapping of timeframe codes to
pandas frequency strings (the Python dict, embedded as a lookup). -/
def SUPPORTED_TIMEFRAMES : String → Option String
  | "1m" => some "1min"
  | "5m" => some "5min"
  | "15m" => some "15min"
  | "30m" => some "30min"
  | "1h" => some "1H"
  | "1d" => some "1D"
  | "1w" => some "1W"
  | "1M" => some "1MS"
  | _ => none

/-- `DataResampler._validate_timeframe`: returns the pandas-compatible
frequency string, raises `ValueError` (here: `Except.error`) when the code
is not a key of `SUPPORTED_TIMEFRAMES`. -/
def validate_timeframe (timeframe : String) : Except String String :=
  match SUPPORTED_TIMEFRAMES timeframe with
  | some freq => Except.ok freq
  | none => Except.error ("Unsupported timeframe " ++ timeframe)

/-- Width in minutes of a fixed-width pandas frequency string, as used by
the aggregation.  `1MS` (calendar month start) is not fixed-width; it is
mapped to an arbitrary width here and is exercised by no claim. -/
def freqMinutes : String → ℕ
  | "1min" => 1
  | "5min" => 5
  | "15min" => 15
  | "30min" => 30
  | "1H" => 60
  | "1D" => 1440
  | "1W" => 10080
  | _ => 43200

/-- `DataResampler._prepare_dataframe`: index by datetime and sort
ascending (`df.sort_index`).  Timezone localization keeps the wall-clock
value, hence is the identity on `ts`. -/
def prepare_dataframe (data : List Candle) : List Candle :=
  List.insertionSort (fun a b => a.ts ≤ b.ts) data

/-- Two rows fall in the same resampling bucket of width `d` minutes
(buckets anchored at midnight, left-closed). -/
def sameBucket (d : ℕ) (c x : Candle) : Bool :=
  x.ts / d == c.ts / d

/-- Reduce one bucket's run of candles `c :: rest` by the source's
per-column rules (`aggregate_open` = first, `aggregate_high` = max,
`aggregate_low` = min, `aggregate_close` = last, `aggregate_volume` =
sum), labelled by the bucket start (`label='left'`). -/
def mkBucket (d : ℕ) (c : Candle) (rest : List Candle) : Bucket :=
  { label := c.ts / d * d
    op := c.op
    high := (rest.map Candle.high).foldl max c.high
    low := (rest.map Candle.low).foldl min c.low
    close := ((rest.getLast?).getD c).close
    volume := c.volume + (rest.map Candle.volume).sum }

theorem length_dropWhile_le' (p : α → Bool) (l : List α) :
    (l.dropWhile p).length ≤ l.length := by
  induction l with
  | nil => simp
  | cons x xs ih =>
    by_cases h : p x
    · rw [List.dropWhile_cons_of_pos h]
      exact Nat.le_succ_of_le ih
    · rw [List.dropWhile_cons_of_neg h]

/-- Run-splitting recursion with explicit fuel (any fuel at least the
list length computes the same result; the fuel only makes the recursion
structural). -/
def aggRunsFuel (d : ℕ) : ℕ → List Candle → List Bucket
  | _, [] => []
  | 0, _ :: _ => []
  | fuel + 1, c :: cs =>
    mkBucket d c (cs.takeWhile (sameBucket d c)) ::
      aggRunsFuel d fuel (cs.dropWhile (sameBucket d c))

/-- The raw first/max/min/last/sum reduction of the sorted frame: the
combined per-column `resample(...).first()/.max()/.min()/.last()/.sum()`
of `aggregate_ohlcv_advanced` before its `high < low` repair step, as a
run-splitting pass over the (sorted) candle list. -/
def aggregate_runs (d : ℕ) (cs : List Candle) : List Bucket :=
  aggRunsFuel d cs.length cs

theorem aggRunsFuel_nil (d fuel : ℕ) : aggRunsFuel d fuel [] = [] := by
  cases fuel <;> rfl

theorem aggRunsFuel_fuel_irrel (d : ℕ) :
    ∀ (f1 : ℕ) (cs : List Candle) (f2 : ℕ), cs.length ≤ f1 → cs.length ≤ f2 →
      aggRunsFuel d f1 cs = aggRunsFuel d f2 cs := by
  intro f1
  induction f1 with
  | zero =>
    intro cs f2 h1 _
    have hcs : cs = [] := List.length_eq_zero.mp (Nat.le_zero.mp h1)
    subst hcs
    rw [aggRunsFuel_nil, aggRunsFuel_nil]
  | succ g ih =>
    intro cs f2 h1 h2
    cases cs with
    | nil => rw [aggRunsFuel_nil, aggRunsFuel_nil]
    | cons c cs =>
      cases f2 with
      | zero => exact absurd h2 (by simp)
      | succ h =>
        simp only [aggRunsFuel]
        have hd : (cs.dropWhile (sameBucket d c)).length ≤ cs.length :=
          length_dropWhile_le' _ _
        rw [ih _ h (le_trans hd (Nat.le_of_succ_le_succ h1))
          (le_trans hd (Nat.le_of_succ_le_succ h2))]

theorem aggregate_runs_nil (d : ℕ) : aggregate_runs d [] = [] := rfl

theorem aggregate_runs_cons (d : ℕ) (c : Candle) (cs : List Candle) :
    aggregate_runs d (c :: cs) =
      mkBucket d c (cs.takeWhile (sameBucket d c)) ::
        aggregate_runs d (cs.dropWhile (sameBucket d c)) := by
  show aggRunsFuel d (cs.length + 1) (c :: cs) = _
  simp only [aggRunsFuel]
  rw [aggRunsFuel_fuel_irrel d cs.length _ (cs.dropWhile (sameBucket d c)).length
    (length_dropWhile_le' _ _) le_rfl]
  rfl

/-- The repair step of `aggregate_ohlcv_advanced`: where a bucket has
`high < low`, set `high = low` (`resampled.loc[invalid_hl, 'high'] =
resampled.loc[invalid_hl, 'low']`). -/
def repairBucket (b : Bucket) : Bucket :=
  if b.high < b.low then { b with high := b.low } else b

/-- `DataResampler.aggregate_ohlcv_advanced` with the default aggregation
rules (the only rules the application ever passes), on a sorted frame:
raw per-column reduction followed by the `high < low` repair. -/
def aggregate_ohlcv_advanced (d : ℕ) (df : List Candle) : List Bucket :=
  (aggregate_runs d df).map repairBucket

/-- Result of `DataResampler._validate_data_integrity`, keeping the
fields the claims touch (`valid`, `errors`, `warnings` and the
record/volume stats). -/
structure ValidationResult where
  valid : Bool
  errors : List String
  warnings : List String
  original_records : ℕ
  resampled_records : ℕ
  original_volume : ℕ
  resampled_volume : ℕ
  deriving DecidableEq

/-- The per-row OHLC-relationship test of `_validate_data_integrity`:
`high < low` or `high < open` or `high < close` or `low > open` or
`low > close`. -/
def ohlcInvalid (b : Bucket) : Bool :=
  b.high < b.low || b.high < b.op || b.high < b.close ||
    b.low > b.op || b.low > b.close

/-- `DataResampler._validate_data_integrity`: volume conservation within
0.01, OHLC relationship check on the resampled rows, and the compression
warning (`len(resampled)/len(original) > 0.9`). -/
def validate_data_integrity (original : List Candle) (resampled : List Bucket) :
    ValidationResult :=
  let ov : ℕ := (original.map Candle.volume).sum
  let rv : ℕ := (resampled.map Bucket.volume).sum
  let volumeErrs : List String :=
    if |(ov : ℚ) - (rv : ℚ)| > 1 / 100 then ["Volume mismatch"] else []
  let ohlcErrs : List String :=
    if (resampled.filter ohlcInvalid).isEmpty then []
    else ["Invalid OHLC relationships found"]
  let warns : List String :=
    if 0 < original.length ∧
        (9 : ℚ) / 10 < (resampled.length : ℚ) / (original.length : ℚ)
    then ["Low data reduction"] else []
  { valid := volumeErrs.isEmpty && ohlcErrs.isEmpty
    errors := volumeErrs ++ ohlcErrs
    warnings := warns
    original_records := original.length
    resampled_records := resampled.length
    original_volume := ov
    resampled_volume := rv }

/-- The dictionary returned by `resample_data` and its two helpers.
`errorMsg` is the `error` key of the failure dictionaries; `data` holds
the output rows (each row's `datetime`/`date`/`time` strings are all
derived from the bucket label, so the label stands for them). -/
structure ResampleResult where
  success : Bool
  data : List Bucket
  errors : List String
  warnings : List String
  errorMsg : Option String
  deriving DecidableEq

/-- The failure dictionary `{success: False, error: msg, data: [],
metadata: {}}` built by `resample_data`, both for the empty-source early
return and for the `except` boundary that converts any exception raised
during resampling into a failed result. -/
def failureResult (msg : String) : ResampleResult :=
  { success := false, data := [], errors := [], warnings := [],
    errorMsg := some msg }

/-- `DataResampler._resample_small_dataset`: prepare, aggregate, validate;
`success` is the validator's verdict and `errors` is its error list (only
surfaced when invalid). -/
def resample_small_dataset (d : ℕ) (data : List Candle) : ResampleResult :=
  let df := prepare_dataframe data
  let resampled := aggregate_ohlcv_advanced d df
  let validation := validate_data_integrity df resampled
  { success := validation.valid
    data := resampled
    errors := if validation.valid then [] else validation.errors
    warnings := validation.warnings
    errorMsg := none }

/-- Fueled pagination loop of `_resample_large_dataset`: pages of
`chunkSize` rows via offset/limit.  With `chunkSize = 0` the first
`limit(0)` page is empty, so the loop breaks at once with no pages. -/
def chunkPagesFuel {α : Type} (k : ℕ) : ℕ → List α → List (List α)
  | _, [] => []
  | 0, _ :: _ => []
  | fuel + 1, x :: xs =>
    if k = 0 then []
    else (x :: xs).take k :: chunkPagesFuel k fuel ((x :: xs).drop k)

/-- The ordered, non-overlapping offset/limit pages of the query result. -/
def chunkPages {α : Type} (k : ℕ) (l : List α) : List (List α) :=
  chunkPagesFuel k l.length l

/-- `DataResampler._resample_large_dataset`: aggregate each page
independently (`_prepare_dataframe` then `_aggregate_ohlcv`), concatenate
the per-page rows, sort the concatenation by datetime, and return
`success = True` with empty `errors`/`warnings` — no integrity validation
runs on this path.  `rows` is the query result, ordered by (date, time). -/
def resample_large_dataset (chunkSize d : ℕ) (rows : List Candle) :
    ResampleResult :=
  let pages := chunkPages chunkSize rows
  let allData :=
    (pages.map (fun page => aggregate_ohlcv_advanced d (prepare_dataframe page))).flatten
  { success := true
    data := List.insertionSort (fun a b => a.label ≤ b.label) allData
    errors := []
    warnings := []
    errorMsg := none }

/-- `DataResampler.resample_data`, the public entry point.  `data` stands
for the rows the `StockData` query returns for the requested range (the
query orders by date and time, hence the `prepare_dataframe` on the
chunked path).  The `try/except` boundary of the source is embedded by
turning each `raise` (unsupported target timeframe, non-1m source) into
the failure dictionary the `except` clause would build, so the function
is total and never propagates an exception. -/
def resample_data (chunkSize : ℕ) (source_timeframe target_timeframe : String)
    (data : List Candle) : ResampleResult :=
  match validate_timeframe target_timeframe with
  | Except.error e => failureResult e
  | Except.ok freq =>
    if source_timeframe ≠ "1m" then
      failureResult
        ("Currently only 1m source timeframe is supported, got " ++ source_timeframe)
    else if data.length = 0 then
      failureResult "No data found"
    else if data.length > chunkSize then
      resample_large_dataset chunkSize (freqMinutes freq) (prepare_dataframe data)
    else
      resample_small_dataset (freqMinutes freq) data

/-- Scenario A input: five 1-minute candles at 09:15..09:19 (minutes 555
through 559 of the day). -/
def scenarioA : List Candle :=
  [⟨555, 100, 102, 99, 101, 1000⟩,
   ⟨556, 101, 103, 100, 102, 1200⟩,
   ⟨557, 102, 104, 101, 103, 1100⟩,
   ⟨558, 103, 105, 102, 104, 1300⟩,
   ⟨559, 104, 106, 103, 105, 1400⟩]

/-- C1: the five 1-minute candles of Scenario A (09:15..09:19, opens
[100..104], highs [102..106], lows [99..103], closes [101..105], volumes
[1000,1200,1100,1300,1400]) aggregated to the 5m target timeframe yield
exactly one bucket, labelled by the bucket start 09:15 (minute 555), with
open 100, high 106, low 99, close 105 and volume 6000. -/
theorem C1_scenarioA :
    aggregate_ohlcv_advanced 5 (prepare_dataframe scenarioA) =
      [{ label := 555, op := 100, high := 106, low := 99, close := 105,
         volume := 6000 }] := by
  decide

theorem mkBucket_volume (d : ℕ) (c : Candle) (rest : List Candle) :
    (mkBucket d c rest).volume = ((c :: rest).map Candle.volume).sum := by
  simp [mkBucket]

theorem repairBucket_volume (b : Bucket) :
    (repairBucket b).volume = b.volume := by
  unfold repairBucket
  split <;> rfl

theorem aggRunsFuel_volume (d : ℕ) :
    ∀ (fuel : ℕ) (cs : List Candle), cs.length ≤ fuel →
      ((aggRunsFuel d fuel cs).map Bucket.volume).sum = (cs.map Candle.volume).sum := by
  intro fuel
  induction fuel with
  | zero =>
    intro cs hlen
    have hcs : cs = [] := List.length_eq_zero.mp (Nat.le_zero.mp hlen)
    subst hcs
    rfl
  | succ g ih =>
    intro cs hlen
    cases cs with
    | nil => rw [aggRunsFuel_nil]; rfl
    | cons c cs =>
      simp only [aggRunsFuel, List.map_cons, List.sum_cons, mkBucket_volume]
      rw [ih _ (le_trans (length_dropWhile_le' _ _) (Nat.le_of_succ_le_succ hlen))]
      rw [Nat.add_assoc, ← List.sum_append, ← List.map_append,
        List.takeWhile_append_dropWhile]

theorem aggregate_ohlcv_advanced_volume (d : ℕ) (df : List Candle) :
    ((aggregate_ohlcv_advanced d df).map Bucket.volume).sum
      = (df.map Candle.volume).sum := by
  unfold aggregate_ohlcv_advanced aggregate_runs
  rw [List.map_map]
  have hcomp : Bucket.volume ∘ repairBucket = Bucket.volume :=
    funext fun b => repairBucket_volume b
  rw [hcomp]
  exact aggRunsFuel_volume d _ _ le_rfl

theorem prepare_dataframe_perm (data : List Candle) :
    List.Perm (prepare_dataframe data) data :=
  List.perm_insertionSort _ data

/-- C2: for every input series of candles (volumes being non-negative
integers by type), the sum of the `volume` field over the buckets that
aggregation produces equals the sum of the `volume` field over the input
candles, exactly, for every bucket width. -/
theorem C2_volume_conservation (d : ℕ) (cs : List Candle) :
    ((aggregate_ohlcv_advanced d (prepare_dataframe cs)).map Bucket.volume).sum
      = (cs.map Candle.volume).sum := by
  rw [aggregate_ohlcv_advanced_volume]
  exact List.Perm.sum_eq (List.Perm.map _ (prepare_dataframe_perm cs))

/-- Well-formedness of an input candle (spec §3 data model): open and
close both lie between low and high. -/
def CandleValid (c : Candle) : Prop :=
  c.low ≤ c.op ∧ c.op ≤ c.high ∧ c.low ≤ c.close ∧ c.close ≤ c.high

/-- The OHLC ordering invariant on an output bucket: `low ≤ open, close`
and `open, close ≤ high`. -/
def BucketValid (b : Bucket) : Prop :=
  b.low ≤ b.op ∧ b.op ≤ b.high ∧ b.low ≤ b.close ∧ b.close ≤ b.high

instance (c : Candle) : Decidable (CandleValid c) := by
  unfold CandleValid
  infer_instance

instance (b : Bucket) : Decidable (BucketValid b) := by
  unfold BucketValid
  infer_instance

theorem foldl_max_le_self (a : ℚ) (l : List ℚ) : a ≤ l.foldl max a := by
  induction l generalizing a with
  | nil => exact le_rfl
  | cons x xs ih => exact le_trans (le_max_left a x) (ih _)

theorem le_foldl_max_of_mem {x : ℚ} {l : List ℚ} (h : x ∈ l) (a : ℚ) :
    x ≤ l.foldl max a := by
  induction l generalizing a with
  | nil => cases h
  | cons y ys ih =>
    rcases List.mem_cons.mp h with hx | hx
    · subst hx
      exact le_trans (le_max_right a x) (foldl_max_le_self _ _)
    · exact ih hx _

theorem foldl_min_le_self (a : ℚ) (l : List ℚ) : l.foldl min a ≤ a := by
  induction l generalizing a with
  | nil => exact le_rfl
  | cons x xs ih => exact le_trans (ih _) (min_le_left a x)

theorem foldl_min_le_of_mem {x : ℚ} {l : List ℚ} (h : x ∈ l) (a : ℚ) :
    l.foldl min a ≤ x := by
  induction l generalizing a with
  | nil => cases h
  | cons y ys ih =>
    rcases List.mem_cons.mp h with hx | hx
    · subst hx
      exact le_trans (foldl_min_le_self (min a x) ys) (min_le_right a x)
    · exact ih hx _

theorem getLastD_mem (c : Candle) (rest : List Candle) :
    (rest.getLast?).getD c ∈ c :: rest := by
  cases h : rest.getLast? with
  | none => simp
  | some z =>
    obtain ⟨hne, hz⟩ :=
      List.mem_getLast?_eq_getLast (l := rest) (x := z) (Option.mem_def.mpr h)
    simp only [Option.getD_some]
    exact List.mem_cons_of_mem _ (hz ▸ List.getLast_mem hne)

theorem mem_of_mem_takeWhile {p : α → Bool} {l : List α} {x : α}
    (h : x ∈ l.takeWhile p) : x ∈ l := by
  induction l with
  | nil => simp at h
  | cons y ys ih =>
    by_cases hp : p y
    · rw [List.takeWhile_cons_of_pos hp] at h
      rcases List.mem_cons.mp h with hx | hx
      · exact hx ▸ List.mem_cons_self _ _
      · exact List.mem_cons_of_mem _ (ih hx)
    · rw [List.takeWhile_cons_of_neg hp] at h
      cases h

theorem mem_of_mem_dropWhile {p : α → Bool} {l : List α} {x : α}
    (h : x ∈ l.dropWhile p) : x ∈ l := by
  induction l with
  | nil => simp at h
  | cons y ys ih =>
    by_cases hp : p y
    · rw [List.dropWhile_cons_of_pos hp] at h
      exact List.mem_cons_of_mem _ (ih h)
    · rw [List.dropWhile_cons_of_neg hp] at h
      exact h

theorem mkBucket_valid (d : ℕ) (c : Candle) (rest : List Candle)
    (h : ∀ x ∈ c :: rest, CandleValid x) : BucketValid (mkBucket d c rest) := by
  obtain ⟨hc1, hc2, _, _⟩ := h c (List.mem_cons_self c rest)
  obtain ⟨_, _, hz3, hz4⟩ := h _ (getLastD_mem c rest)
  have hlow_c : (rest.map Candle.low).foldl min c.low ≤ c.low :=
    foldl_min_le_self _ _
  have hhigh_c : c.high ≤ (rest.map Candle.high).foldl max c.high :=
    foldl_max_le_self _ _
  have hlow_z : (rest.map Candle.low).foldl min c.low ≤ ((rest.getLast?).getD c).low := by
    rcases List.mem_cons.mp (getLastD_mem c rest) with hz | hz
    · rw [hz]; exact hlow_c
    · exact foldl_min_le_of_mem (List.mem_map_of_mem Candle.low hz) _
  have hhigh_z : ((rest.getLast?).getD c).high ≤ (rest.map Candle.high).foldl max c.high := by
    rcases List.mem_cons.mp (getLastD_mem c rest) with hz | hz
    · rw [hz]; exact hhigh_c
    · exact le_foldl_max_of_mem (List.mem_map_of_mem Candle.high hz) _
  exact ⟨le_trans hlow_c hc1, le_trans hc2 hhigh_c,
    le_trans hlow_z hz3, le_trans hz4 hhigh_z⟩

theorem aggRunsFuel_valid (d : ℕ) :
    ∀ (fuel : ℕ) (cs : List Candle), cs.length ≤ fuel →
      (∀ c ∈ cs, CandleValid c) →
      ∀ b ∈ aggRunsFuel d fuel cs, BucketValid b := by
  intro fuel
  induction fuel with
  | zero =>
    intro cs hlen _ b hb
    have hcs : cs = [] := List.length_eq_zero.mp (Nat.le_zero.mp hlen)
    subst hcs
    cases hb
  | succ g ih =>
    intro cs hlen hv b hb
    cases cs with
    | nil => rw [aggRunsFuel_nil] at hb; cases hb
    | cons c cs =>
      simp only [aggRunsFuel] at hb
      rcases List.mem_cons.mp hb with hb | hb
      · subst hb
        refine mkBucket_valid d c _ ?_
        intro x hx
        rcases List.mem_cons.mp hx with hx | hx
        · exact hx ▸ hv c (List.mem_cons_self _ _)
        · exact hv x (List.mem_cons_of_mem _ (mem_of_mem_takeWhile hx))
      · exact ih _ (le_trans (length_dropWhile_le' _ _) (Nat.le_of_succ_le_succ hlen))
          (fun x hx => hv x (List.mem_cons_of_mem _ (mem_of_mem_dropWhile hx))) b hb

theorem repairBucket_of_valid {b : Bucket} (h : BucketValid b) :
    repairBucket b = b := by
  unfold repairBucket
  rw [if_neg]
  exact not_lt.mpr (le_trans h.1 h.2.1)

/-- C3: when every input candle satisfies `low ≤ open ≤ high` and
`low ≤ close ≤ high`, every output bucket of aggregation satisfies
`low ≤ open`, `low ≤ close`, `open ≤ high` and `close ≤ high`, for every
bucket width. -/
theorem C3_ohlc_invariant (d : ℕ) (cs : List Candle)
    (h : ∀ c ∈ cs, CandleValid c) :
    ∀ b ∈ aggregate_ohlcv_advanced d (prepare_dataframe cs), BucketValid b := by
  intro b hb
  unfold aggregate_ohlcv_advanced aggregate_runs at hb
  obtain ⟨b0, hb0, rfl⟩ := List.mem_map.mp hb
  have hprep : ∀ c ∈ prepare_dataframe cs, CandleValid c := fun c hc =>
    h c ((prepare_dataframe_perm cs).mem_iff.mp hc)
  have hv := aggRunsFuel_valid d _ _ le_rfl hprep b0 hb0
  rw [repairBucket_of_valid hv]
  exact hv

/-- The single 5m bucket of Scenario A. -/
def scenarioABucket : Bucket :=
  { label := 555, op := 100, high := 106, low := 99, close := 105, volume := 6000 }

/-- Witness for C3 at the Scenario A input. -/
theorem C3_ohlc_invariant_witness : BucketValid scenarioABucket := by
  have h := C3_ohlc_invariant 5 scenarioA (by decide)
  exact h _ (by decide)

/-- C4 counterexample: contrary to the claim, resampling an empty source
series does not return `success = true`: `resample_data` takes the
`total_records == 0` early return, a failure dictionary with
`success = False` and the explanatory message in its `error` key. -/
theorem C4_counterexample :
    (resample_data 10000 "1m" "5m" []).success = false := by
  rfl

/-- C4 amended: for every resample invocation with a supported target
timeframe, 1m source and an empty source series, the result has
`success = false`, zero output records, an empty `errors` list, and an
explanatory message in the `error` field. -/
theorem C4_empty_source (chunkSize : ℕ) (tgt : String)
    (h : (SUPPORTED_TIMEFRAMES tgt).isSome = true) :
    (resample_data chunkSize "1m" tgt []).success = false ∧
    (resample_data chunkSize "1m" tgt []).data = [] ∧
    (resample_data chunkSize "1m" tgt []).errors = [] ∧
    (resample_data chunkSize "1m" tgt []).errorMsg = some "No data found" := by
  obtain ⟨freq, hf⟩ := Option.isSome_iff_exists.mp h
  unfold resample_data validate_timeframe
  rw [hf]
  simp [failureResult]

/-- Witness for the amended C4. -/
theorem C4_empty_source_witness :
    (resample_data 10000 "1m" "5m" []).success = false ∧
    (resample_data 10000 "1m" "5m" []).data = [] ∧
    (resample_data 10000 "1m" "5m" []).errors = [] ∧
    (resample_data 10000 "1m" "5m" []).errorMsg = some "No data found" :=
  C4_empty_source 10000 "5m" (by decide)

/-- C5 counterexample: the claim lists `3m` among the codes for which
timeframe resolution succeeds, but `3m` is not a key of
`SUPPORTED_TIMEFRAMES`, so `_validate_timeframe` raises (ValueError). -/
theorem C5_counterexample :
    validate_timeframe "3m" = Except.error "Unsupported timeframe 3m" := by
  rfl

theorem SUPPORTED_TIMEFRAMES_isSome (code : String) :
    (SUPPORTED_TIMEFRAMES code).isSome = true ↔
      code ∈ ["1m", "5m", "15m", "30m", "1h", "1d", "1w", "1M"] := by
  unfold SUPPORTED_TIMEFRAMES
  split
  next => simp
  next => simp
  next => simp
  next => simp
  next => simp
  next => simp
  next => simp
  next => simp
  next h1 h2 h3 h4 h5 h6 h7 h8 =>
    simp only [Option.isSome_none, Bool.false_eq_true, false_iff, List.mem_cons,
      List.not_mem_nil, or_false]
    exact fun h =>
      h.elim h1 (fun h => h.elim h2 (fun h => h.elim h3 (fun h => h.elim h4
        (fun h => h.elim h5 (fun h => h.elim h6 (fun h => h.elim h7 h8))))))

/-- C5 amended: timeframe resolution succeeds exactly for the eight codes
1m, 5m, 15m, 30m, 1h, 1d, 1w and 1M, and fails with ValueError
(InvalidTimeframe) for every other code — in particular for 2m, 3m and
10m. -/
theorem C5_supported_codes (code : String) :
    (validate_timeframe code).isOk = true ↔
      code ∈ ["1m", "5m", "15m", "30m", "1h", "1d", "1w", "1M"] := by
  rw [← SUPPORTED_TIMEFRAMES_isSome]
  unfold validate_timeframe
  cases h : SUPPORTED_TIMEFRAMES code <;> simp [Except.isOk, Except.toBool]

/-- C6: a call to the public entry point with a source interval other
than 1m returns a failed result (`success = false`, no data); when the
target timeframe is supported, the failure carries the
unsupported-source message.  The entry point is a total function: the
`raise` is modelled as the failure dictionary the `except` boundary
builds, so no exception ever reaches the caller. -/
theorem C6_source_timeframe_guard (chunkSize : ℕ) (src tgt : String)
    (data : List Candle) (h : src ≠ "1m") :
    (resample_data chunkSize src tgt data).success = false ∧
    (resample_data chunkSize src tgt data).data = [] ∧
    ((SUPPORTED_TIMEFRAMES tgt).isSome = true →
      (resample_data chunkSize src tgt data).errorMsg =
        some ("Currently only 1m source timeframe is supported, got " ++ src)) := by
  unfold resample_data
  cases hv : validate_timeframe tgt with
  | error e =>
    refine ⟨rfl, rfl, fun hsome => ?_⟩
    obtain ⟨freq, hf⟩ := Option.isSome_iff_exists.mp hsome
    unfold validate_timeframe at hv
    rw [hf] at hv
    cases hv
  | ok freq =>
    refine ⟨?_, ?_, fun _ => ?_⟩ <;> simp [h, failureResult]

/-- Witness for C6. -/
theorem C6_source_timeframe_guard_witness :
    (resample_data 10000 "5m" "5m" scenarioA).success = false ∧
    (resample_data 10000 "5m" "5m" scenarioA).data = [] ∧
    (resample_data 10000 "5m" "5m" scenarioA).errorMsg =
      some "Currently only 1m source timeframe is supported, got 5m" := by
  have h := C6_source_timeframe_guard 10000 "5m" "5m" scenarioA (by decide)
  exact ⟨h.1, h.2.1, h.2.2 (by decide)⟩

/-- A malformed candle whose open exceeds its high (minute 555). -/
def badCandle1 : Candle :=
  { ts := 555, op := 10, high := 5, low := 1, close := 2, volume := 100 }

/-- A malformed candle whose open exceeds its high (minute 560). -/
def badCandle2 : Candle :=
  { ts := 560, op := 10, high := 5, low := 1, close := 2, volume := 100 }

/-- C7 counterexample: a chunked invocation (two records, chunk size 1)
returns `success = true` although integrity validation applied to the
same source frame and returned rows finds an OHLC-invariant violation —
`_resample_large_dataset` never runs `_validate_data_integrity`. -/
theorem C7_counterexample :
    (resample_data 1 "1m" "5m" [badCandle1, badCandle2]).success = true ∧
    (validate_data_integrity (prepare_dataframe [badCandle1, badCandle2])
      (resample_data 1 "1m" "5m" [badCandle1, badCandle2]).data).valid = false := by
  constructor
  · rfl
  · have hdata : (resample_data 1 "1m" "5m" [badCandle1, badCandle2]).data =
        [{ label := 555, op := 10, high := 5, low := 1, close := 2, volume := 100 },
         { label := 560, op := 10, high := 5, low := 1, close := 2, volume := 100 }] := rfl
    have hprep : prepare_dataframe [badCandle1, badCandle2] =
        [badCandle1, badCandle2] := rfl
    rw [hdata, hprep]
    unfold validate_data_integrity
    norm_num [badCandle1, badCandle2, ohlcInvalid]

/-- C7 amended: for a non-empty source series with a supported target,
integrity validation gates the result only on the single-shot path
(record count at most the chunk size), where `success` equals the
validator's verdict; the chunked path runs no validation and always
returns `success = true`. -/
theorem C7_validation_gate (chunkSize : ℕ) (tgt freq : String) (cs : List Candle)
    (hf : validate_timeframe tgt = Except.ok freq) (hne : 0 < cs.length) :
    (resample_data chunkSize "1m" tgt cs).success =
      (if cs.length ≤ chunkSize then
        (validate_data_integrity (prepare_dataframe cs)
          (aggregate_ohlcv_advanced (freqMinutes freq) (prepare_dataframe cs))).valid
       else true) := by
  unfold resample_data
  rw [hf]
  simp only [ne_eq, not_true_eq_false, if_false, Nat.pos_iff_ne_zero.mp hne]
  by_cases hchunk : cs.length ≤ chunkSize
  · rw [if_neg (not_lt.mpr hchunk), if_pos hchunk]
    rfl
  · rw [if_pos (not_le.mp hchunk), if_neg hchunk]
    rfl

/-- Witness for the amended C7 at the Scenario A input. -/
theorem C7_validation_gate_witness :
    (resample_data 10000 "1m" "5m" scenarioA).success =
      (if scenarioA.length ≤ 10000 then
        (validate_data_integrity (prepare_dataframe scenarioA)
          (aggregate_ohlcv_advanced (freqMinutes "5min") (prepare_dataframe scenarioA))).valid
       else true) :=
  C7_validation_gate 10000 "5m" "5min" scenarioA (by rfl) (by decide)

theorem prepare_dataframe_sorted_eq {cs : List Candle}
    (h : List.Pairwise (fun a b => a.ts ≤ b.ts) cs) : prepare_dataframe cs = cs :=
  List.Sorted.insertionSort_eq h

/-- The bucket an already-bucketed candle maps to: same values, labelled
by its own timestamp. -/
def candleAsBucket (c : Candle) : Bucket :=
  { label := c.ts, op := c.op, high := c.high, low := c.low,
    close := c.close, volume := c.volume }

theorem aggregate_runs_bucketed (d : ℕ) :
    ∀ cs : List Candle, List.Pairwise (fun a b => a.ts < b.ts) cs →
      (∀ c ∈ cs, d ∣ c.ts) →
      aggregate_runs d cs = cs.map candleAsBucket := by
  intro cs
  induction cs with
  | nil => intro _ _; rfl
  | cons c cs ih =>
    intro hp hdvd
    rw [aggregate_runs_cons]
    have hkey : ∀ x ∈ cs, sameBucket d c x = false := by
      intro x hx
      have hlt : c.ts < x.ts := (List.pairwise_cons.mp hp).1 x hx
      have hne : c.ts / d < x.ts / d :=
        Nat.div_lt_div_of_lt_of_dvd (hdvd x (List.mem_cons_of_mem _ hx)) hlt
      simp [sameBucket]
      exact Nat.ne_of_gt hne
    have htake : cs.takeWhile (sameBucket d c) = [] := by
      cases cs with
      | nil => rfl
      | cons x xs =>
        rw [List.takeWhile_cons_of_neg]
        simp [hkey x (List.mem_cons_self _ _)]
    have hdrop : cs.dropWhile (sameBucket d c) = cs := by
      cases cs with
      | nil => rfl
      | cons x xs =>
        rw [List.dropWhile_cons_of_neg]
        simp [hkey x (List.mem_cons_self _ _)]
    rw [htake, hdrop,
      ih (List.pairwise_cons.mp hp).2 (fun x hx => hdvd x (List.mem_cons_of_mem _ hx))]
    rw [List.map_cons]
    have hlabel : c.ts / d * d = c.ts :=
      Nat.div_mul_cancel (hdvd c (List.mem_cons_self _ _))
    simp [mkBucket, candleAsBucket, hlabel]

/-- C9: aggregation is idempotent on an already-correctly-bucketed
series: if the candles are strictly increasing in time, each timestamped
at its own bucket start (`d` divides its timestamp, so there is exactly
one candle per bucket), and each candle is well-formed (`low ≤ high`),
then re-aggregating yields the same series: same bucket labels and the
identical open, high, low, close and volume per bucket. -/
theorem C9_idempotence (d : ℕ) (cs : List Candle)
    (hsorted : List.Pairwise (fun a b => a.ts < b.ts) cs)
    (hdvd : ∀ c ∈ cs, d ∣ c.ts)
    (hvalid : ∀ c ∈ cs, c.low ≤ c.high) :
    aggregate_ohlcv_advanced d (prepare_dataframe cs) = cs.map candleAsBucket := by
  rw [prepare_dataframe_sorted_eq (hsorted.imp (fun h => le_of_lt h))]
  unfold aggregate_ohlcv_advanced
  rw [aggregate_runs_bucketed d cs hsorted hdvd, List.map_map]
  apply List.map_congr_left
  intro c hc
  show repairBucket (candleAsBucket c) = candleAsBucket c
  unfold repairBucket
  rw [if_neg]
  exact not_lt.mpr (hvalid c hc)

/-- An already-bucketed 5m series: one candle per 5m bucket, each at its
bucket start. -/
def bucketedSeries : List Candle :=
  [{ ts := 555, op := 1, high := 3, low := 0, close := 2, volume := 10 },
   { ts := 560, op := 2, high := 4, low := 1, close := 3, volume := 20 }]

/-- Witness for C9 at a concrete already-bucketed 5m series. -/
theorem C9_idempotence_witness :
    aggregate_ohlcv_advanced 5 (prepare_dataframe bucketedSeries) =
      bucketedSeries.map candleAsBucket :=
  C9_idempotence 5 bucketedSeries (by decide) (by decide) (by decide)

theorem takeWhile_append_of_neg {α : Type} {p : α → Bool} {l2 : List α}
    (h2 : ∀ b ∈ l2, p b = false) (t : List α) :
    (t ++ l2).takeWhile p = t.takeWhile p := by
  induction t with
  | nil =>
    simp only [List.nil_append, List.takeWhile_nil]
    cases l2 with
    | nil => rfl
    | cons b bs =>
      exact List.takeWhile_cons_of_neg (by simp [h2 b (List.mem_cons_self _ _)])
  | cons x xs ih =>
    by_cases hx : p x
    · rw [List.cons_append, List.takeWhile_cons_of_pos hx,
        List.takeWhile_cons_of_pos hx, ih]
    · rw [List.cons_append, List.takeWhile_cons_of_neg hx,
        List.takeWhile_cons_of_neg hx]

theorem dropWhile_append_of_neg {α : Type} {p : α → Bool} {l2 : List α}
    (h2 : ∀ b ∈ l2, p b = false) (t : List α) :
    (t ++ l2).dropWhile p = t.dropWhile p ++ l2 := by
  induction t with
  | nil =>
    simp only [List.nil_append, List.dropWhile_nil]
    cases l2 with
    | nil => rfl
    | cons b bs =>
      exact List.dropWhile_cons_of_neg (by simp [h2 b (List.mem_cons_self _ _)])
  | cons x xs ih =>
    by_cases hx : p x
    · rw [List.cons_append, List.dropWhile_cons_of_pos hx,
        List.dropWhile_cons_of_pos hx, ih]
    · rw [List.cons_append, List.dropWhile_cons_of_neg hx,
        List.dropWhile_cons_of_neg hx, List.cons_append]

theorem aggregate_runs_append_aux (d : ℕ) :
    ∀ (fuel : ℕ) (l1 l2 : List Candle), l1.length ≤ fuel →
      (∀ a ∈ l1, ∀ b ∈ l2, a.ts / d < b.ts / d) →
      aggregate_runs d (l1 ++ l2) = aggregate_runs d l1 ++ aggregate_runs d l2 := by
  intro fuel
  induction fuel with
  | zero =>
    intro l1 l2 h1 _
    have h : l1 = [] := List.length_eq_zero.mp (Nat.le_zero.mp h1)
    subst h
    rw [List.nil_append, aggregate_runs_nil, List.nil_append]
  | succ g ih =>
    intro l1 l2 h1 hsep
    cases l1 with
    | nil => rw [List.nil_append, aggregate_runs_nil, List.nil_append]
    | cons c t =>
      have hl2 : ∀ b ∈ l2, sameBucket d c b = false := by
        intro b hb
        simp only [sameBucket, beq_eq_false_iff_ne, ne_eq]
        exact ne_of_gt (hsep c (List.mem_cons_self _ _) b hb)
      rw [List.cons_append, aggregate_runs_cons, aggregate_runs_cons,
        takeWhile_append_of_neg hl2 t, dropWhile_append_of_neg hl2 t,
        ih (t.dropWhile (sameBucket d c)) l2
          (le_trans (length_dropWhile_le' _ _) (Nat.le_of_succ_le_succ h1))
          (fun a ha b hb =>
            hsep a (List.mem_cons_of_mem _ (mem_of_mem_dropWhile ha)) b hb),
        List.cons_append]

/-- Aggregation distributes over an append whose two parts are separated
by a bucket boundary: no bucket straddles the two parts. -/
theorem aggregate_runs_append (d : ℕ) (l1 l2 : List Candle)
    (hsep : ∀ a ∈ l1, ∀ b ∈ l2, a.ts / d < b.ts / d) :
    aggregate_runs d (l1 ++ l2) = aggregate_runs d l1 ++ aggregate_runs d l2 :=
  aggregate_runs_append_aux d l1.length l1 l2 le_rfl hsep

theorem chunkPagesFuel_nil {α : Type} (k fuel : ℕ) :
    chunkPagesFuel k fuel ([] : List α) = [] := by
  cases fuel <;> rfl

theorem chunkPagesFuel_fuel_irrel {α : Type} (k : ℕ) :
    ∀ (f1 : ℕ) (l : List α) (f2 : ℕ), l.length ≤ f1 → l.length ≤ f2 →
      chunkPagesFuel k f1 l = chunkPagesFuel k f2 l := by
  intro f1
  induction f1 with
  | zero =>
    intro l f2 h1 _
    have h : l = [] := List.length_eq_zero.mp (Nat.le_zero.mp h1)
    subst h
    rw [chunkPagesFuel_nil, chunkPagesFuel_nil]
  | succ g ih =>
    intro l f2 h1 h2
    cases l with
    | nil => rw [chunkPagesFuel_nil, chunkPagesFuel_nil]
    | cons x xs =>
      cases f2 with
      | zero => exact absurd h2 (by simp)
      | succ h =>
        by_cases hk : k = 0
        · simp only [chunkPagesFuel, if_pos hk]
        · simp only [chunkPagesFuel, if_neg hk]
          have hlen : ((x :: xs).drop k).length ≤ xs.length := by
            rw [List.length_drop]
            simp only [List.length_cons]
            omega
          rw [ih _ h (le_trans hlen (Nat.le_of_succ_le_succ h1))
            (le_trans hlen (Nat.le_of_succ_le_succ h2))]

theorem chunkPages_cons {α : Type} (k : ℕ) (hk : k ≠ 0) (x : α) (xs : List α) :
    chunkPages k (x :: xs) =
      (x :: xs).take k :: chunkPages k ((x :: xs).drop k) := by
  show chunkPagesFuel k (xs.length + 1) (x :: xs) = _
  simp only [chunkPagesFuel, if_neg hk]
  congr 1
  have hlen : ((x :: xs).drop k).length ≤ xs.length := by
    rw [List.length_drop]
    simp only [List.length_cons]
    omega
  exact chunkPagesFuel_fuel_irrel k xs.length _ _ hlen le_rfl

theorem chunkPagesFuel_sublist {α : Type} (k : ℕ) :
    ∀ (fuel : ℕ) (l : List α), ∀ p ∈ chunkPagesFuel k fuel l, List.Sublist p l := by
  intro fuel
  induction fuel with
  | zero =>
    intro l p hp
    cases l with
    | nil =>
      rw [chunkPagesFuel_nil] at hp
      cases hp
    | cons x xs =>
      simp only [chunkPagesFuel] at hp
      cases hp
  | succ g ih =>
    intro l p hp
    cases l with
    | nil =>
      rw [chunkPagesFuel_nil] at hp
      cases hp
    | cons x xs =>
      by_cases hk : k = 0
      · simp only [chunkPagesFuel, if_pos hk] at hp
        cases hp
      · simp only [chunkPagesFuel, if_neg hk] at hp
        rcases List.mem_cons.mp hp with h | h
        · subst h
          exact List.take_sublist _ _
        · exact (ih _ p h).trans (List.drop_sublist _ _)

/-- Every offset/limit page is a sublist of the query result. -/
theorem chunkPages_sublist {α : Type} (k : ℕ) (l : List α) :
    ∀ p ∈ chunkPages k l, List.Sublist p l :=
  chunkPagesFuel_sublist k l.length l

/-- Chunk-boundary separation for pages of size `k` and bucket width `d`:
every candle of page `i` falls in a strictly earlier bucket than every
candle beyond page `i`. -/
def SepChunks (k d : ℕ) (cs : List Candle) : Prop :=
  ∀ i : ℕ, ∀ a ∈ (cs.drop (k * i)).take k, ∀ b ∈ cs.drop (k * (i + 1)),
    a.ts / d < b.ts / d

theorem SepChunks.drop {k d : ℕ} {cs : List Candle} (h : SepChunks k d cs) :
    SepChunks k d (cs.drop k) := by
  intro i a ha b hb
  rw [List.drop_drop] at ha hb
  have e1 : k + k * i = k * (i + 1) := by ring
  have e2 : k + k * (i + 1) = k * (i + 1 + 1) := by ring
  rw [e1] at ha
  rw [e2] at hb
  exact h (i + 1) a ha b hb

/-- Concatenating the per-page aggregations of bucket-aligned pages
reproduces the single-shot aggregation. -/
theorem chunkPages_flatten_agg (d k : ℕ) (hk : k ≠ 0) :
    ∀ (fuel : ℕ) (cs : List Candle), cs.length ≤ fuel → SepChunks k d cs →
      ((chunkPages k cs).map (aggregate_runs d)).flatten = aggregate_runs d cs := by
  intro fuel
  induction fuel with
  | zero =>
    intro cs h1 _
    have h : cs = [] := List.length_eq_zero.mp (Nat.le_zero.mp h1)
    subst h
    rfl
  | succ g ih =>
    intro cs h1 hsep
    cases cs with
    | nil => rfl
    | cons x xs =>
      rw [chunkPages_cons k hk x xs, List.map_cons, List.flatten_cons]
      have hlen : ((x :: xs).drop k).length ≤ g := by
        rw [List.length_drop]
        simp only [List.length_cons]
        simp only [List.length_cons] at h1
        omega
      rw [ih _ hlen hsep.drop]
      have hsep0 : ∀ a ∈ (x :: xs).take k, ∀ b ∈ (x :: xs).drop k,
          a.ts / d < b.ts / d := by
        intro a ha b hb
        have h0 := hsep 0
        simp only [Nat.mul_zero, Nat.zero_add, Nat.mul_one, List.drop_zero] at h0
        exact h0 a ha b hb
      rw [← aggregate_runs_append d _ _ hsep0, List.take_append_drop]

/-- C10: the `high < low` repair step of `aggregate_ohlcv_advanced` is
frame-local: relative to the raw first/max/min/last/sum reduction it
leaves the bucket labels and every `open`, `low`, `close` and `volume`
unchanged, and rewrites only the `high` column, bucket-wise to
`low` where the raw bucket had `high < low` and to the raw `high`
everywhere else — so buckets with `high ≥ low` are untouched. -/
theorem C10_repair_frame (d : ℕ) (cs : List Candle) :
    (aggregate_ohlcv_advanced d cs).map Bucket.label
        = (aggregate_runs d cs).map Bucket.label ∧
    (aggregate_ohlcv_advanced d cs).map Bucket.op
        = (aggregate_runs d cs).map Bucket.op ∧
    (aggregate_ohlcv_advanced d cs).map Bucket.low
        = (aggregate_runs d cs).map Bucket.low ∧
    (aggregate_ohlcv_advanced d cs).map Bucket.close
        = (aggregate_runs d cs).map Bucket.close ∧
    (aggregate_ohlcv_advanced d cs).map Bucket.volume
        = (aggregate_runs d cs).map Bucket.volume ∧
    (aggregate_ohlcv_advanced d cs).map Bucket.high
        = (aggregate_runs d cs).map
            (fun b => if b.high < b.low then b.low else b.high) := by
  unfold aggregate_ohlcv_advanced
  rw [List.map_map, List.map_map, List.map_map, List.map_map, List.map_map,
    List.map_map]
  refine ⟨?_, ?_, ?_, ?_, ?_, ?_⟩ <;>
    · apply List.map_congr_left
      intro b _
      by_cases hb : b.high < b.low <;>
        simp [Function.comp, repairBucket, hb]

theorem range'_drop (s n m : ℕ) :
    (List.range' s n).drop m = List.range' (s + m) (n - m) := by
  induction n generalizing s m with
  | zero => simp
  | succ n ih =>
    cases m with
    | zero => simp
    | succ m =>
      rw [List.range'_succ, List.drop_succ_cons, ih (s + 1) m, Nat.succ_sub_succ]
      congr 1
      omega

theorem range'_take (s n m : ℕ) :
    (List.range' s n).take m = List.range' s (min m n) := by
  induction n generalizing s m with
  | zero => simp
  | succ n ih =>
    cases m with
    | zero => simp
    | succ m =>
      rw [List.range'_succ, List.take_succ_cons, ih (s + 1) m, Nat.succ_min_succ,
        List.range'_succ]

/-- Price/volume payload of one synthetic candle. -/
structure CandleData where
  op : ℚ
  high : ℚ
  low : ℚ
  close : ℚ
  volume : ℕ

/-- A contiguous run of `n` 1-minute candles starting at minute `start`,
with arbitrary per-candle payload (Scenario D's synthetic data). -/
def synthSeries (start n : ℕ) (f : ℕ → CandleData) : List Candle :=
  (List.range n).map (fun i =>
    { ts := start + i, op := (f i).op, high := (f i).high, low := (f i).low,
      close := (f i).close, volume := (f i).volume })

theorem synthSeries_length (start n : ℕ) (f : ℕ → CandleData) :
    (synthSeries start n f).length = n := by
  unfold synthSeries
  rw [List.length_map, List.length_range]

theorem synthSeries_sorted (start n : ℕ) (f : ℕ → CandleData) :
    List.Pairwise (fun a b => a.ts ≤ b.ts) (synthSeries start n f) := by
  unfold synthSeries
  rw [List.pairwise_map]
  refine (List.pairwise_lt_range n).imp ?_
  intro i j hij
  show start + i ≤ start + j
  omega

theorem synth_drop_ts {start n m : ℕ} {f : ℕ → CandleData} {c : Candle}
    (hc : c ∈ (synthSeries start n f).drop m) : start + m ≤ c.ts := by
  unfold synthSeries at hc
  rw [← List.map_drop] at hc
  obtain ⟨i, hi, rfl⟩ := List.mem_map.mp hc
  rw [List.range_eq_range' n, range'_drop] at hi
  have h := (List.mem_range'_1.mp hi).1
  show start + m ≤ start + i
  omega

theorem synth_take_drop_ts {start n m k : ℕ} {f : ℕ → CandleData} {c : Candle}
    (hc : c ∈ ((synthSeries start n f).drop m).take k) :
    c.ts < start + m + k := by
  unfold synthSeries at hc
  rw [← List.map_drop, ← List.map_take] at hc
  obtain ⟨i, hi, rfl⟩ := List.mem_map.mp hc
  rw [List.range_eq_range' n, range'_drop, range'_take] at hi
  have h := (List.mem_range'_1.mp hi).2
  have hmin : min k (n - m) ≤ k := Nat.min_le_left _ _
  show start + i < start + m + k
  omega

theorem synthSeries_SepChunks (start n k : ℕ) (f : ℕ → CandleData)
    (hk5 : 5 ∣ k) (hs5 : 5 ∣ start) :
    SepChunks k 5 (synthSeries start n f) := by
  intro i a ha b hb
  have hats : a.ts < start + k * i + k := synth_take_drop_ts ha
  have hbts : start + k * (i + 1) ≤ b.ts := synth_drop_ts hb
  have hM : (5 : ℕ) ∣ start + k * (i + 1) :=
    Nat.dvd_add hs5 (hk5.mul_right (i + 1))
  have h1 : a.ts / 5 < (start + k * (i + 1)) / 5 := by
    apply Nat.div_lt_div_of_lt_of_dvd hM
    have e : k * i + k = k * (i + 1) := by ring
    omega
  exact lt_of_lt_of_le h1 (Nat.div_le_div_right hbts)

theorem resample_data_chunked_5m (chunkSize : ℕ) (cs : List Candle)
    (hne : 0 < cs.length) (hgt : chunkSize < cs.length) :
    resample_data chunkSize "1m" "5m" cs =
      resample_large_dataset chunkSize 5 (prepare_dataframe cs) := by
  unfold resample_data
  rw [show validate_timeframe "5m" = Except.ok "5min" from rfl]
  simp only [ne_eq, not_true_eq_false, if_false, Nat.pos_iff_ne_zero.mp hne]
  rw [if_pos hgt]
  rfl

theorem resample_large_dataset_data (chunkSize d : ℕ) (rows : List Candle) :
    (resample_large_dataset chunkSize d rows).data =
      List.insertionSort (fun a b => a.label ≤ b.label)
        (((chunkPages chunkSize rows).map
          (fun page => aggregate_ohlcv_advanced d (prepare_dataframe page))).flatten) :=
  rfl

/-- C8: for the 20,001-candle synthetic contiguous 1-minute series of
Scenario D (bucket-aligned start minute, as the synthetic generator
produces), resampling to 5m through the chunked executor with
chunk_size = 5000 yields the same total volume sum and the same number of
output buckets as the single-shot aggregation of the whole series. -/
theorem C8_chunked_equivalence (start : ℕ) (f : ℕ → CandleData)
    (h5 : start % 5 = 0) :
    (((resample_data 5000 "1m" "5m" (synthSeries start 20001 f)).data).map
        Bucket.volume).sum =
      ((aggregate_ohlcv_advanced 5
          (prepare_dataframe (synthSeries start 20001 f))).map Bucket.volume).sum ∧
    ((resample_data 5000 "1m" "5m" (synthSeries start 20001 f)).data).length =
      (aggregate_ohlcv_advanced 5
        (prepare_dataframe (synthSeries start 20001 f))).length := by
  set s := synthSeries start 20001 f with hs
  have hlen : s.length = 20001 := synthSeries_length start 20001 f
  have hsorted : List.Pairwise (fun a b => a.ts ≤ b.ts) s :=
    synthSeries_sorted start 20001 f
  have hprep : prepare_dataframe s = s := prepare_dataframe_sorted_eq hsorted
  have hres : resample_data 5000 "1m" "5m" s =
      resample_large_dataset 5000 5 (prepare_dataframe s) :=
    resample_data_chunked_5m 5000 s (by rw [hlen]; norm_num) (by rw [hlen]; norm_num)
  have hpages : ∀ p ∈ chunkPages 5000 s, prepare_dataframe p = p := fun p hp =>
    prepare_dataframe_sorted_eq (hsorted.sublist (chunkPages_sublist 5000 s p hp))
  have hmap : (chunkPages 5000 s).map
        (fun page => aggregate_ohlcv_advanced 5 (prepare_dataframe page)) =
      (chunkPages 5000 s).map (fun page => aggregate_ohlcv_advanced 5 page) :=
    List.map_congr_left (fun p hp => by rw [hpages p hp])
  have hsep : SepChunks 5000 5 s :=
    synthSeries_SepChunks start 20001 5000 f (by norm_num) (Nat.dvd_of_mod_eq_zero h5)
  have hflat : ((chunkPages 5000 s).map (aggregate_runs 5)).flatten =
      aggregate_runs 5 s :=
    chunkPages_flatten_agg 5 5000 (by norm_num) s.length s le_rfl hsep
  have hcomp : (chunkPages 5000 s).map (fun page => aggregate_ohlcv_advanced 5 page) =
      ((chunkPages 5000 s).map (aggregate_runs 5)).map (List.map repairBucket) := by
    rw [List.map_map]
    rfl
  have hdata : (resample_large_dataset 5000 5 s).data =
      List.insertionSort (fun a b => a.label ≤ b.label)
        (aggregate_ohlcv_advanced 5 s) := by
    rw [resample_large_dataset_data, hmap, hcomp, ← List.map_flatten, hflat]
    rfl
  have hperm : List.Perm (resample_data 5000 "1m" "5m" s).data
      (aggregate_ohlcv_advanced 5 s) := by
    rw [hres, hprep, hdata]
    exact List.perm_insertionSort _ _
  constructor
  · rw [hprep]
    exact List.Perm.sum_eq (hperm.map Bucket.volume)
  · rw [hprep]
    exact hperm.length_eq

/-- Witness for C8: start at 09:15 (minute 555, bucket-aligned) with a
constant payload. -/
theorem C8_chunked_equivalence_witness :
    (((resample_data 5000 "1m" "5m"
        (synthSeries 555 20001 (fun _ => ⟨1, 1, 1, 1, 1⟩))).data).map
          Bucket.volume).sum =
      ((aggregate_ohlcv_advanced 5 (prepare_dataframe
          (synthSeries 555 20001 (fun _ => ⟨1, 1, 1, 1, 1⟩)))).map
            Bucket.volume).sum ∧
    ((resample_data 5000 "1m" "5m"
        (synthSeries 555 20001 (fun _ => ⟨1, 1, 1, 1, 1⟩))).data).length =
      (aggregate_ohlcv_advanced 5 (prepare_dataframe
        (synthSeries 555 20001 (fun _ => ⟨1, 1, 1, 1, 1⟩)))).length :=
  C8_chunked_equivalence 555 (fun _ => ⟨1, 1, 1, 1, 1⟩) (by decide)

end Historify
